import Mathlib

/-!
Verification of the `slices` package (generic utility functions for Go
slices, with negative indexing counting from the right end).

A Go slice of element type `T` is embedded as a `List T`; Go `int`
indices are embedded as `Int`.  Go's built-in `copy(dst, src)` copies
`min (len dst) (len src)` elements and is overlap-safe (memmove
semantics), so the functional model reads the source as a snapshot
taken before any element of the destination is written.  A Go slicing
expression `s[a:]` used as a copy destination mutates `s` from
position `a` on; this is `copyAt s a src` below.  Element access
`s[i]` panics outside `[0, len s)`; the total embedding `goGet`
returns `none` exactly there, and likewise `goSet` for assignment.
-/

namespace slices

variable {T : Type}

/-- Go built-in `copy(dst, src)`: overwrite the first
`min (len dst) (len src)` positions of `dst` with the corresponding
elements of `src`, returning the new contents of `dst`. -/
def goCopy (dst src : List T) : List T :=
  src.take (min dst.length src.length) ++ dst.drop (min dst.length src.length)

/-- The effect on a Go slice `s` of the statement `copy(s[a:], src)`:
the tail of `s` starting at `a` is the copy destination, and the whole
slice (with its prefix before `a` untouched) is returned. -/
def copyAt (s : List T) (a : Nat) (src : List T) : List T :=
  s.take a ++ goCopy (s.drop a) src

/-- Go element read `s[i]` for an `int` index: yields the element when
`0 ≤ i < len s` and faults (`none`) otherwise. -/
def goGet (s : List T) (i : Int) : Option T :=
  if i < 0 then none else s[i.toNat]?

/-- Go element write `s[i] = v` for an `int` index: yields the updated
slice contents when `0 ≤ i < len s` and faults (`none`) otherwise. -/
def goSet (s : List T) (i : Int) (v : T) : Option (List T) :=
  if 0 ≤ i ∧ i < (s.length : Int) then some (s.set i.toNat v) else none

/-- Get gets the `idx`'th element of `s`.
If `idx < 0` it counts from the end of `s`. -/
def Get (s : List T) (idx : Int) : Option T :=
  let idx := if idx < 0 then idx + (s.length : Int) else idx
  goGet s idx

/-- Put puts a given value into the `idx`'th location in `s`.
If `idx < 0` it counts from the end of `s`. -/
def Put (s : List T) (idx : Int) (val : T) : Option (List T) :=
  let idx := if idx < 0 then idx + (s.length : Int) else idx
  goSet s idx val

/-- Append is the same as Go's builtin append. -/
def Append (s : List T) (vals : List T) : List T :=
  s ++ vals

/-- The unexported helper `insert`: grow `s` by appending `vals`, shift
the block originally at `[idx, len s)` rightward by `len vals` with an
overlap-safe copy, then write `vals` at `[idx, idx+len vals)`. -/
def insert (s : List T) (idx : Int) (vals : List T) : List T :=
  let s1 := s ++ vals
  let s2 := copyAt s1 (idx + (vals.length : Int)).toNat (s1.drop idx.toNat)
  copyAt s2 idx.toNat vals

/-- Insert inserts the given values at the `idx`'th location in `s`
and returns the result.  After the insert, the first new value has
position `idx`.  If `idx < 0`, it counts from the end of `s`. -/
def Insert (s : List T) (idx : Int) (vals : List T) : List T :=
  let idx := if idx < 0 then idx + (s.length : Int) else idx
  insert s idx vals

/-- The unexported helper `removeN`: copy the block `s[idx+n:]`
leftward onto `s[idx:]`, then truncate to `len s - n`. -/
def removeN (s : List T) (idx n : Int) : List T :=
  let s1 := copyAt s idx.toNat (s.drop (idx + n).toNat)
  let newlen := (s.length : Int) - n
  s1.take newlen.toNat

/-- RemoveN removes `n` items from `s` beginning at position `idx`
and returns the result.  If `idx < 0` it counts from the end of `s`. -/
def RemoveN (s : List T) (idx n : Int) : List T :=
  let idx := if idx < 0 then idx + (s.length : Int) else idx
  removeN s idx n

/-- RemoveTo removes items from `s` beginning at position `from` and
ending before position `to`.  Negative endpoints count from the end of
`s`; `to == 0` means `len s`. -/
def RemoveTo (s : List T) (frm toPos : Int) : List T :=
  let frm := if frm < 0 then frm + (s.length : Int) else frm
  let toPos := if toPos < 0 then toPos + (s.length : Int)
               else if toPos = 0 then (s.length : Int) else toPos
  removeN s frm (toPos - frm)

/-- The unexported helper `replaceN`: when removing more than
inserting, first remove the surplus; when inserting more than
removing, first insert the surplus prefix of `vals` and advance `idx`;
finally overwrite in place with the remaining values. -/
def replaceN (s : List T) (idx n : Int) (vals : List T) : List T :=
  if n > (vals.length : Int) then
    let s := removeN s idx (n - (vals.length : Int))
    copyAt s idx.toNat vals
  else if n < (vals.length : Int) then
    let delta := (vals.length : Int) - n
    let s := insert s idx (vals.take delta.toNat)
    let idx := idx + delta
    copyAt s idx.toNat (vals.drop delta.toNat)
  else
    copyAt s idx.toNat vals

/-- ReplaceN replaces the `n` values of `s` beginning at position
`idx` with the given values.  After the replace, the first new value
has position `idx`.  If `idx < 0`, it counts from the end of `s`. -/
def ReplaceN (s : List T) (idx n : Int) (vals : List T) : List T :=
  let idx := if idx < 0 then idx + (s.length : Int) else idx
  replaceN s idx n vals

/-- ReplaceTo replaces the values of `s` beginning at `from` and
ending before `to` with the given values.  Negative endpoints count
from the end of `s`; `to == 0` means `len s`. -/
def ReplaceTo (s : List T) (frm toPos : Int) (vals : List T) : List T :=
  let frm := if frm < 0 then frm + (s.length : Int) else frm
  let toPos := if toPos < 0 then toPos + (s.length : Int)
               else if toPos = 0 then (s.length : Int) else toPos
  replaceN s frm (toPos - frm) vals

/-- Go function Prefix returns `s` up to but not including position `idx`.
If `idx < 0` it counts from the end of `s`. -/
def Prefix (s : List T) (idx : Int) : List T :=
  let idx := if idx < 0 then idx + (s.length : Int) else idx
  s.take idx.toNat

/-- Suffix returns `s` excluding elements before position `idx`.
If `idx < 0` it counts from the end of `s`. -/
def Suffix (s : List T) (idx : Int) : List T :=
  let idx := if idx < 0 then idx + (s.length : Int) else idx
  s.drop idx.toNat

/-- SliceN returns `n` elements of `s` beginning at position `idx`.
If `idx < 0` it counts from the end of `s`. -/
def SliceN (s : List T) (idx n : Int) : List T :=
  let idx := if idx < 0 then idx + (s.length : Int) else idx
  (s.take (idx + n).toNat).drop idx.toNat

/-- SliceTo returns the elements of `s` beginning at position `from`
and ending before position `to`.  Negative endpoints count from the
end of `s`; `to == 0` means `len s`. -/
def SliceTo (s : List T) (frm toPos : Int) : List T :=
  let frm := if frm < 0 then frm + (s.length : Int) else frm
  let toPos := if toPos < 0 then toPos + (s.length : Int)
               else if toPos = 0 then (s.length : Int) else toPos
  (s.take toPos.toNat).drop frm.toNat

/-- The index-normalization rule shared by every operation (inlined in
each Go function as `if idx < 0 \x7b idx += len(s) \x7d`): a negative raw
index counts from the end. -/
def normIdx (i : Int) (len : Nat) : Int :=
  if i < 0 then i + (len : Int) else i

/-- The end-point normalization rule shared by `ReplaceTo`, `RemoveTo`
and `SliceTo`: a negative `to` counts from the end, and `to == 0` is
the end-of-sequence sentinel meaning `len s`. -/
def normTo (t : Int) (len : Nat) : Int :=
  if t < 0 then t + (len : Int) else if t = 0 then (len : Int) else t

/-! ### Behaviour of the copy / splice primitives -/

theorem copyAt_spec (s src : List T) (a : Nat) (h : a + src.length ≤ s.length) :
    copyAt s a src = s.take a ++ src ++ s.drop (a + src.length) := by
  have hmin : min (s.drop a).length src.length = src.length := by
    simp only [List.length_drop]; omega
  simp only [copyAt, goCopy, hmin, List.take_length, List.drop_drop,
    List.append_assoc]

theorem insert_spec (s vals : List T) (j : Int) (h0 : 0 ≤ j)
    (h1 : j ≤ (s.length : Int)) :
    insert s j vals = s.take j.toNat ++ vals ++ s.drop j.toNat := by
  have hJ : j.toNat ≤ s.length := by omega
  have hjv : (j + (vals.length : Int)).toNat = j.toNat + vals.length := by omega
  have hdropJ : (s ++ vals).drop j.toNat = s.drop j.toNat ++ vals :=
    List.drop_append_of_le_length hJ
  have hs2 : copyAt (s ++ vals) (j.toNat + vals.length) ((s ++ vals).drop j.toNat)
      = (s ++ vals).take (j.toNat + vals.length) ++ s.drop j.toNat := by
    have hmin : min ((s ++ vals).drop (j.toNat + vals.length)).length
        ((s ++ vals).drop j.toNat).length = s.length - j.toNat := by
      simp only [List.length_drop, List.length_append]; omega
    have htk : ((s ++ vals).drop j.toNat).take (s.length - j.toNat)
        = s.drop j.toNat := by
      rw [hdropJ,
        List.take_append_of_le_length (by simp only [List.length_drop]; omega),
        List.take_of_length_le (by simp only [List.length_drop]; omega)]
    have hdr : ((s ++ vals).drop (j.toNat + vals.length)).drop (s.length - j.toNat)
        = [] := by
      rw [List.drop_drop]
      exact List.drop_eq_nil_of_le (by simp only [List.length_append]; omega)
    simp only [copyAt, goCopy, hmin, htk, hdr, List.append_nil]
  have hlen2 : ((s ++ vals).take (j.toNat + vals.length)).length
      = j.toNat + vals.length := by
    simp only [List.length_take, List.length_append]; omega
  have hside : j.toNat + vals.length
      ≤ ((s ++ vals).take (j.toNat + vals.length) ++ s.drop j.toNat).length := by
    simp only [List.length_append, hlen2, List.length_drop]
    omega
  have htkJ : j.toNat ≤ ((s ++ vals).take (j.toNat + vals.length)).length := by
    rw [hlen2]
    omega
  have hfin : copyAt ((s ++ vals).take (j.toNat + vals.length) ++ s.drop j.toNat)
      j.toNat vals = s.take j.toNat ++ vals ++ s.drop j.toNat := by
    rw [copyAt_spec _ _ _ hside]
    have h1' : ((s ++ vals).take (j.toNat + vals.length) ++ s.drop j.toNat).take
        j.toNat = s.take j.toNat := by
      rw [List.take_append_of_le_length htkJ, List.take_take,
        Nat.min_eq_left (by omega), List.take_append_of_le_length hJ]
    have h2' : ((s ++ vals).take (j.toNat + vals.length) ++ s.drop j.toNat).drop
        (j.toNat + vals.length) = s.drop j.toNat :=
      List.drop_left' hlen2
    rw [h1', h2']
  have hun : insert s j vals
      = copyAt (copyAt (s ++ vals) (j + (vals.length : Int)).toNat
          ((s ++ vals).drop j.toNat)) j.toNat vals := rfl
  rw [hun, hjv, hs2, hfin]

theorem removeN_spec (s : List T) (j n : Int) (h0 : 0 ≤ j) (hn : 0 ≤ n)
    (h : j + n ≤ (s.length : Int)) :
    removeN s j n = s.take j.toNat ++ s.drop (j + n).toNat := by
  have hc : copyAt s j.toNat (s.drop (j + n).toNat)
      = s.take j.toNat ++ s.drop (j + n).toNat ++
        s.drop (j.toNat + (s.drop (j + n).toNat).length) := by
    exact copyAt_spec s _ j.toNat (by simp only [List.length_drop]; omega)
  have hlen : (s.take j.toNat ++ s.drop (j + n).toNat).length
      = ((s.length : Int) - n).toNat := by
    simp only [List.length_append, List.length_take, List.length_drop]; omega
  simp only [removeN, hc, List.append_assoc]
  rw [← List.append_assoc, List.take_left' hlen]

theorem replaceN_spec (s vals : List T) (j n : Int) (h0 : 0 ≤ j) (hn : 0 ≤ n)
    (h : j + n ≤ (s.length : Int)) :
    replaceN s j n vals = s.take j.toNat ++ vals ++ s.drop (j + n).toNat := by
  have hJ : j.toNat ≤ s.length := by omega
  rcases lt_trichotomy n (vals.length : Int) with hlt | heq | hgt
  · -- net growth: n < len vals
    simp only [replaceN]
    rw [if_neg (by omega), if_pos hlt]
    have hD : ((vals.length : Int) - n).toNat = vals.length - n.toNat := by omega
    have hDle : vals.length - n.toNat ≤ vals.length := by omega
    rw [insert_spec s _ j h0 (by omega)]
    have hjd : (j + ((vals.length : Int) - n)).toNat
        = j.toNat + (vals.length - n.toNat) := by omega
    rw [hjd, hD]
    have hlen1 : (s.take j.toNat ++ (vals.take (vals.length - n.toNat))).length
        = j.toNat + (vals.length - n.toNat) := by
      simp only [List.length_append, List.length_take]; omega
    have hside1 : j.toNat + (vals.length - n.toNat) +
        (vals.drop (vals.length - n.toNat)).length
        ≤ (s.take j.toNat ++ vals.take (vals.length - n.toNat) ++
            s.drop j.toNat).length := by
      simp only [List.length_append, List.length_take, List.length_drop]
      omega
    rw [copyAt_spec _ _ _ hside1]
    rw [List.take_left' hlen1]
    have hdr : (s.take j.toNat ++ vals.take (vals.length - n.toNat) ++
        s.drop j.toNat).drop (j.toNat + (vals.length - n.toNat) +
          (vals.drop (vals.length - n.toNat)).length)
        = s.drop (j + n).toNat := by
      have hsplit : j.toNat + (vals.length - n.toNat) +
          (vals.drop (vals.length - n.toNat)).length
          = (s.take j.toNat ++ vals.take (vals.length - n.toNat)).length
            + n.toNat := by
        simp only [hlen1, List.length_drop]; omega
      rw [hsplit, List.drop_append, List.drop_drop]
      congr 1
      omega
    rw [hdr, List.append_assoc (s.take j.toNat), List.take_append_drop]
  · -- exact replacement: n = len vals
    simp only [replaceN]
    rw [if_neg (by omega), if_neg (by omega)]
    rw [copyAt_spec _ _ _ (by omega)]
    congr 2
    omega
  · -- net shrink: n > len vals
    simp only [replaceN]
    rw [if_pos hgt]
    rw [removeN_spec s j _ h0 (by omega) (by omega)]
    have hjnv : (j + (n - (vals.length : Int))).toNat
        = j.toNat + n.toNat - vals.length := by omega
    rw [hjnv]
    have hside3 : j.toNat + vals.length
        ≤ (s.take j.toNat ++ s.drop (j.toNat + n.toNat - vals.length)).length := by
      simp only [List.length_append, List.length_take, List.length_drop]
      omega
    rw [copyAt_spec _ _ _ hside3]
    have hlt1 : (s.take j.toNat).length = j.toNat := by
      simp only [List.length_take]; omega
    have h1' : (s.take j.toNat ++ s.drop (j.toNat + n.toNat - vals.length)).take
        j.toNat = s.take j.toNat := by
      rw [List.take_append_of_le_length (show j.toNat ≤ (s.take j.toNat).length
        by rw [hlt1]), List.take_take, Nat.min_eq_left (le_refl _)]
    have h2' : (s.take j.toNat ++ s.drop (j.toNat + n.toNat - vals.length)).drop
        (j.toNat + vals.length) = s.drop (j + n).toNat := by
      have hsplit : j.toNat + vals.length
          = (s.take j.toNat).length + vals.length := by rw [hlt1]
      rw [hsplit, List.drop_append, List.drop_drop]
      congr 1
      omega
    rw [h1', h2']

/-! ### Claims -/

/-- C1: for every sequence `S`, index `idx` whose normalized value lies
in `[0, len S]`, and value list `vals`, `Insert S idx vals` keeps the
elements before the normalized position unchanged in place, puts the
elements of `vals` in order starting at that position, and shifts every
element of `S` originally at or after that position right by
`len vals` positions. -/
theorem C1_insert_correct (S : List T) (idx : Int) (vals : List T)
    (h0 : 0 ≤ normIdx idx S.length)
    (h1 : normIdx idx S.length ≤ (S.length : Int)) :
    Insert S idx vals
      = S.take (normIdx idx S.length).toNat ++ vals
        ++ S.drop (normIdx idx S.length).toNat := by
  have hun : Insert S idx vals = insert S (normIdx idx S.length) vals := rfl
  rw [hun, insert_spec S vals _ h0 h1]

/-- Witness for C1 at the spec's concrete scenario:
`Insert([x,y,z], 1, a,b,c)` yields `[x,a,b,c,y,z]`. -/
theorem C1_insert_correct_witness :
    (0 ≤ normIdx 1 ([0, 1, 2] : List Nat).length ∧
      normIdx 1 ([0, 1, 2] : List Nat).length
        ≤ (([0, 1, 2] : List Nat).length : Int)) ∧
    Insert ([0, 1, 2] : List Nat) 1 [10, 20, 30] = [0, 10, 20, 30, 1, 2] :=
  ⟨⟨by decide, by decide⟩,
    (C1_insert_correct ([0, 1, 2] : List Nat) 1 [10, 20, 30]
      (by decide) (by decide)).trans (by decide)⟩

/-- C2: for every sequence `S`, normalized (hence non-negative) index
`idx` and count `n` with `0 ≤ n` and `idx + n ≤ len S`, `ReplaceN`
satisfies in all three branches the single postcondition: positions
`[idx, idx + len vals)` of the result hold `vals` in order, everything
before `idx` is untouched, and every element of `S` originally at or
after `idx + n` follows, i.e. appears shifted by `len vals - n`. -/
theorem C2_replaceN_correct (S vals : List T) (idx n : Int)
    (h0 : 0 ≤ idx) (hn : 0 ≤ n) (h : idx + n ≤ (S.length : Int)) :
    ReplaceN S idx n vals
      = S.take idx.toNat ++ vals ++ S.drop (idx + n).toNat := by
  have hun : ReplaceN S idx n vals
      = replaceN S (normIdx idx S.length) n vals := rfl
  have hni : normIdx idx S.length = idx := by
    unfold normIdx
    rw [if_neg (by omega)]
  rw [hun, hni, replaceN_spec S vals idx n h0 hn h]

/-- Witness for C2 at the spec's growth scenario:
`ReplaceN([a,b,c,d], 1, 2, x,y,z)` yields `[a,x,y,z,d]`. -/
theorem C2_replaceN_correct_witness :
    ((0 : Int) ≤ 1 ∧ (0 : Int) ≤ 2 ∧
      (1 : Int) + 2 ≤ (([0, 1, 2, 3] : List Nat).length : Int)) ∧
    ReplaceN ([0, 1, 2, 3] : List Nat) 1 2 [10, 20, 30] = [0, 10, 20, 30, 3] :=
  ⟨⟨by decide, by decide, by decide⟩,
    (C2_replaceN_correct ([0, 1, 2, 3] : List Nat) [10, 20, 30] 1 2
      (by decide) (by decide) (by decide)).trans (by decide)⟩

/-- C3: `Insert` and `RemoveN` are inverse: for every sequence `S`,
normalized index `idx` in `[0, len S]` and value list `vals`, removing
`len vals` elements at `idx` from the result of inserting `vals` at
`idx` reconstructs exactly the original contents of `S`. -/
theorem C3_insert_removeN_inverse (S vals : List T) (idx : Int)
    (h0 : 0 ≤ idx) (h1 : idx ≤ (S.length : Int)) :
    RemoveN (Insert S idx vals) idx (vals.length : Int) = S := by
  have hIns : Insert S idx vals
      = S.take idx.toNat ++ vals ++ S.drop idx.toNat := by
    have hun : Insert S idx vals = insert S (normIdx idx S.length) vals := rfl
    have hni : normIdx idx S.length = idx := by
      unfold normIdx
      rw [if_neg (by omega)]
    rw [hun, hni, insert_spec S vals idx h0 h1]
  have hlenN : (Insert S idx vals).length = S.length + vals.length := by
    rw [hIns]
    simp only [List.length_append, List.length_take, List.length_drop]
    omega
  have hun2 : RemoveN (Insert S idx vals) idx (vals.length : Int)
      = removeN (Insert S idx vals)
          (if idx < 0 then idx + ((Insert S idx vals).length : Int) else idx)
          (vals.length : Int) := rfl
  rw [hun2, if_neg (by omega)]
  have hbound : idx + (vals.length : Int)
      ≤ ((Insert S idx vals).length : Int) := by
    rw [hlenN]
    push_cast
    omega
  rw [removeN_spec _ idx (vals.length : Int) h0 (by omega) hbound, hIns]
  have hJV : (idx + (vals.length : Int)).toNat = idx.toNat + vals.length := by
    omega
  have hlenAB : (S.take idx.toNat ++ vals).length = idx.toNat + vals.length := by
    simp only [List.length_append, List.length_take]
    omega
  have htk : (S.take idx.toNat ++ vals ++ S.drop idx.toNat).take idx.toNat
      = S.take idx.toNat := by
    rw [List.take_append_of_le_length (show idx.toNat
        ≤ (S.take idx.toNat ++ vals).length by rw [hlenAB]; omega),
      List.take_append_of_le_length (show idx.toNat ≤ (S.take idx.toNat).length
        by simp only [List.length_take]; omega),
      List.take_take, Nat.min_eq_left (le_refl _)]
  have hdr : (S.take idx.toNat ++ vals ++ S.drop idx.toNat).drop
      (idx + (vals.length : Int)).toNat = S.drop idx.toNat := by
    rw [hJV]
    exact List.drop_left' hlenAB
  rw [htk, hdr, List.take_append_drop]

/-- Witness for C3: inserting `[10, 20]` at index 1 of `[1, 2, 3]` and
then removing two elements at index 1 restores `[1, 2, 3]`. -/
theorem C3_insert_removeN_inverse_witness :
    ((0 : Int) ≤ 1 ∧ (1 : Int) ≤ (([1, 2, 3] : List Nat).length : Int)) ∧
    RemoveN (Insert ([1, 2, 3] : List Nat) 1 [10, 20]) 1
      (([10, 20] : List Nat).length : Int) = [1, 2, 3] :=
  ⟨⟨by decide, by decide⟩,
    C3_insert_removeN_inverse ([1, 2, 3] : List Nat) [10, 20] 1
      (by decide) (by decide)⟩

/-- C4: length algebra for in-range arguments: insertion grows the
length by `len vals`, removal shrinks it by `n`, and replacement
changes it by `len vals - n`. -/
theorem C4_length_algebra (S vals : List T) (idx n : Int)
    (h0 : 0 ≤ normIdx idx S.length) (hn : 0 ≤ n)
    (h2 : normIdx idx S.length + n ≤ (S.length : Int)) :
    ((Insert S idx vals).length : Int) = S.length + vals.length ∧
    ((RemoveN S idx n).length : Int) = S.length - n ∧
    ((ReplaceN S idx n vals).length : Int) = S.length - n + vals.length := by
  have h1 : normIdx idx S.length ≤ (S.length : Int) := by omega
  refine ⟨?_, ?_, ?_⟩
  · have hun : Insert S idx vals = insert S (normIdx idx S.length) vals := rfl
    rw [hun, insert_spec S vals _ h0 h1]
    simp only [List.length_append, List.length_take, List.length_drop]
    omega
  · have hun : RemoveN S idx n = removeN S (normIdx idx S.length) n := rfl
    rw [hun, removeN_spec S _ n h0 hn h2]
    simp only [List.length_append, List.length_take, List.length_drop]
    omega
  · have hun : ReplaceN S idx n vals
        = replaceN S (normIdx idx S.length) n vals := rfl
    rw [hun, replaceN_spec S vals _ n h0 hn h2]
    simp only [List.length_append, List.length_take, List.length_drop]
    omega

/-- Witness for C4 at `S = [1,2,3,4]`, `idx = 1`, `n = 2`,
`vals = [7,8,9]`. -/
theorem C4_length_algebra_witness :
    (0 ≤ normIdx 1 ([1, 2, 3, 4] : List Nat).length ∧ (0 : Int) ≤ 2 ∧
      normIdx 1 ([1, 2, 3, 4] : List Nat).length + 2
        ≤ (([1, 2, 3, 4] : List Nat).length : Int)) ∧
    (((Insert ([1, 2, 3, 4] : List Nat) 1 [7, 8, 9]).length : Int)
        = ([1, 2, 3, 4] : List Nat).length + ([7, 8, 9] : List Nat).length ∧
      ((RemoveN ([1, 2, 3, 4] : List Nat) 1 2).length : Int)
        = (([1, 2, 3, 4] : List Nat).length : Int) - 2 ∧
      ((ReplaceN ([1, 2, 3, 4] : List Nat) 1 2 [7, 8, 9]).length : Int)
        = (([1, 2, 3, 4] : List Nat).length : Int) - 2
          + ([7, 8, 9] : List Nat).length) :=
  ⟨⟨by decide, by decide, by decide⟩,
    C4_length_algebra ([1, 2, 3, 4] : List Nat) [7, 8, 9] 1 2
      (by decide) (by decide) (by decide)⟩

/-- C5: negative indices count from the end via the normalization
`i + len S`: for `-len S ≤ i < 0`, reading with `Get` at `i` agrees
with reading at `i + len S`, and `Put` at `i` writes the value at
absolute position `i + len S`. -/
theorem C5_negative_index (S : List T) (i : Int) (v : T)
    (h0 : -(S.length : Int) ≤ i) (h1 : i < 0) :
    Get S i = Get S (i + (S.length : Int)) ∧
    Put S i v = some (S.set (i + (S.length : Int)).toNat v) := by
  constructor
  · have hL : Get S i = goGet S (i + (S.length : Int)) := by
      simp only [Get]
      rw [if_pos h1]
    have hR : Get S (i + (S.length : Int)) = goGet S (i + (S.length : Int)) := by
      simp only [Get]
      rw [if_neg (show ¬ i + (S.length : Int) < 0 by omega)]
    rw [hL, hR]
  · have hP : Put S i v = goSet S (i + (S.length : Int)) v := by
      simp only [Put]
      rw [if_pos h1]
    rw [hP]
    unfold goSet
    rw [if_pos ⟨by omega, by omega⟩]

/-- Witness for C5 at the spec's concrete scenario:
`Get([p,q,r], -1) = r` and `Put([p,q,r], -1, z) = [p,q,z]`. -/
theorem C5_negative_index_witness :
    (-((([1, 2, 3] : List Nat).length : Int)) ≤ -1 ∧ (-1 : Int) < 0) ∧
    (Get ([1, 2, 3] : List Nat) (-1)
        = Get ([1, 2, 3] : List Nat) (-1 + (([1, 2, 3] : List Nat).length : Int)) ∧
      Put ([1, 2, 3] : List Nat) (-1) 9
        = some (([1, 2, 3] : List Nat).set
            (-1 + (([1, 2, 3] : List Nat).length : Int)).toNat 9)) ∧
    Get ([1, 2, 3] : List Nat) (-1) = some 3 ∧
    Put ([1, 2, 3] : List Nat) (-1) 9 = some [1, 2, 9] :=
  ⟨⟨by decide, by decide⟩,
    C5_negative_index ([1, 2, 3] : List Nat) (-1) 9 (by decide) (by decide),
    by decide, by decide⟩

/-- C6: end-of-sequence sentinel: for every index `k` whose normalized
value lies in `[0, len S]`, slicing from `k` to the sentinel `0` is the
same as taking the suffix from `k`: `to == 0` denotes `len S`, not
absolute position 0. -/
theorem C6_sliceTo_sentinel (S : List T) (k : Int)
    (h0 : 0 ≤ normIdx k S.length)
    (h1 : normIdx k S.length ≤ (S.length : Int)) :
    SliceTo S k 0 = Suffix S k := by
  simp only [SliceTo, Suffix]
  rw [if_neg (show ¬ (0 : Int) < 0 by omega)]
  simp

/-- Witness for C6 at `S = [1,2,3,4]`, `k = 1`. -/
theorem C6_sliceTo_sentinel_witness :
    (0 ≤ normIdx 1 ([1, 2, 3, 4] : List Nat).length ∧
      normIdx 1 ([1, 2, 3, 4] : List Nat).length
        ≤ (([1, 2, 3, 4] : List Nat).length : Int)) ∧
    SliceTo ([1, 2, 3, 4] : List Nat) 1 0 = Suffix ([1, 2, 3, 4] : List Nat) 1 :=
  ⟨⟨by decide, by decide⟩,
    C6_sliceTo_sentinel ([1, 2, 3, 4] : List Nat) 1 (by decide) (by decide)⟩

/-- C7: `RemoveN S idx n` with normalized `idx`, `0 ≤ n` and
`idx + n ≤ len S` keeps positions `[0, idx)`, drops the `n` elements at
`[idx, idx+n)`, and moves the block `[idx+n, len S)` leftward onto
`[idx, ...)`, truncating the length to `len S - n`; `n = 0` is a no-op;
`RemoveTo` removes the positions `[from, to)` after normalizing both
endpoints, and in particular `RemoveTo([a,b,c,d], 1, 3) = [a,d]`. -/
theorem C7_removeN_correct (S : List T) (idx n : Int)
    (h0 : 0 ≤ idx) (hn : 0 ≤ n) (h : idx + n ≤ (S.length : Int)) :
    (RemoveN S idx n = S.take idx.toNat ++ S.drop (idx + n).toNat) ∧
    RemoveN S idx 0 = S ∧
    (∀ (S2 : List T) (f t : Int),
      0 ≤ normIdx f S2.length →
      normIdx f S2.length ≤ normTo t S2.length →
      normTo t S2.length ≤ (S2.length : Int) →
      RemoveTo S2 f t
        = S2.take (normIdx f S2.length).toNat
          ++ S2.drop (normTo t S2.length).toNat) ∧
    RemoveTo ([0, 1, 2, 3] : List Nat) 1 3 = [0, 3] := by
  refine ⟨?_, ?_, ?_, by decide⟩
  · have hun : RemoveN S idx n = removeN S (normIdx idx S.length) n := rfl
    have hni : normIdx idx S.length = idx := by
      unfold normIdx
      rw [if_neg (by omega)]
    rw [hun, hni, removeN_spec S idx n h0 hn h]
  · have hun : RemoveN S idx 0 = removeN S (normIdx idx S.length) 0 := rfl
    have hni : normIdx idx S.length = idx := by
      unfold normIdx
      rw [if_neg (by omega)]
    rw [hun, hni, removeN_spec S idx 0 h0 (le_refl 0) (by omega)]
    have hid : (idx + 0).toNat = idx.toNat := by omega
    rw [hid, List.take_append_drop]
  · intro S2 f t hf0 hft ht
    have hun : RemoveTo S2 f t
        = removeN S2 (normIdx f S2.length)
            (normTo t S2.length - normIdx f S2.length) := rfl
    rw [hun, removeN_spec S2 _ _ hf0 (by omega) (by omega)]
    have hsum : normIdx f S2.length
        + (normTo t S2.length - normIdx f S2.length) = normTo t S2.length := by
      ring
    rw [hsum]

/-- Witness for C7 at the spec's concrete scenario:
`RemoveN([a,b,c,d], 1, 2) = [a,d]`. -/
theorem C7_removeN_correct_witness :
    ((0 : Int) ≤ 1 ∧ (0 : Int) ≤ 2 ∧
      (1 : Int) + 2 ≤ (([0, 1, 2, 3] : List Nat).length : Int)) ∧
    RemoveN ([0, 1, 2, 3] : List Nat) 1 2 = [0, 3] :=
  ⟨⟨by decide, by decide, by decide⟩,
    ((C7_removeN_correct ([0, 1, 2, 3] : List Nat) 1 2
      (by decide) (by decide) (by decide)).1).trans (by decide)⟩

/-- C8: the four range views are read-only projections (the embedding
is functional, so none of them can change `S`): with in-range
normalized arguments, the result of ` Prefix` holds exactly the
elements at positions `[0, idx)` of `S`, `Suffix` exactly
`[idx, len S)`, `SliceN` exactly `[idx, idx+n)` and `SliceTo` exactly
`[from, to)`, position by position. -/
theorem C8_range_views (S : List T) (i n f t : Int)
    (h0 : 0 ≤ normIdx i S.length)
    (hn : 0 ≤ n) (h2 : normIdx i S.length + n ≤ (S.length : Int))
    (hf0 : 0 ≤ normIdx f S.length)
    (hft : normIdx f S.length ≤ normTo t S.length)
    (ht : normTo t S.length ≤ (S.length : Int)) :
    (( Prefix S i).length = (normIdx i S.length).toNat ∧
      ∀ k : Nat, k < (normIdx i S.length).toNat → ( Prefix S i)[k]? = S[k]?) ∧
    ((Suffix S i).length = S.length - (normIdx i S.length).toNat ∧
      ∀ k : Nat, (Suffix S i)[k]? = S[(normIdx i S.length).toNat + k]?) ∧
    ((SliceN S i n).length = n.toNat ∧
      ∀ k : Nat, k < n.toNat →
        (SliceN S i n)[k]? = S[(normIdx i S.length).toNat + k]?) ∧
    ((SliceTo S f t).length
        = (normTo t S.length).toNat - (normIdx f S.length).toNat ∧
      ∀ k : Nat, k < (normTo t S.length).toNat - (normIdx f S.length).toNat →
        (SliceTo S f t)[k]? = S[(normIdx f S.length).toNat + k]?) := by
  have hP : Prefix S i = S.take (normIdx i S.length).toNat := rfl
  have hS : Suffix S i = S.drop (normIdx i S.length).toNat := rfl
  have hN : SliceN S i n
      = (S.take (normIdx i S.length + n).toNat).drop
          (normIdx i S.length).toNat := rfl
  have hT : SliceTo S f t
      = (S.take (normTo t S.length).toNat).drop
          (normIdx f S.length).toNat := rfl
  refine ⟨⟨?_, ?_⟩, ⟨?_, ?_⟩, ⟨?_, ?_⟩, ⟨?_, ?_⟩⟩
  · rw [hP, List.length_take]
    omega
  · intro k hk
    rw [hP, List.getElem?_take_of_lt hk]
  · rw [hS, List.length_drop]
  · intro k
    rw [hS, List.getElem?_drop]
  · rw [hN, List.length_drop, List.length_take]
    omega
  · intro k hk
    rw [hN, List.getElem?_drop,
      List.getElem?_take_of_lt (show (normIdx i S.length).toNat + k
        < (normIdx i S.length + n).toNat by omega)]
  · rw [hT, List.length_drop, List.length_take]
    omega
  · intro k hk
    rw [hT, List.getElem?_drop,
      List.getElem?_take_of_lt (show (normIdx f S.length).toNat + k
        < (normTo t S.length).toNat by omega)]

/-- Witness for C8 at `S = [1,2,3,4,5]`, `i = -3` (normalizing to 2),
`n = 2`, `from = 1`, `to = -1` (normalizing to 4). -/
theorem C8_range_views_witness :
    (0 ≤ normIdx (-3) ([1, 2, 3, 4, 5] : List Nat).length ∧ (0 : Int) ≤ 2 ∧
      normIdx (-3) ([1, 2, 3, 4, 5] : List Nat).length + 2
        ≤ (([1, 2, 3, 4, 5] : List Nat).length : Int) ∧
      0 ≤ normIdx 1 ([1, 2, 3, 4, 5] : List Nat).length ∧
      normIdx 1 ([1, 2, 3, 4, 5] : List Nat).length
        ≤ normTo (-1) ([1, 2, 3, 4, 5] : List Nat).length ∧
      normTo (-1) ([1, 2, 3, 4, 5] : List Nat).length
        ≤ (([1, 2, 3, 4, 5] : List Nat).length : Int)) ∧
    (( Prefix ([1, 2, 3, 4, 5] : List Nat) (-3)).length
        = (normIdx (-3) ([1, 2, 3, 4, 5] : List Nat).length).toNat ∧
      ∀ k : Nat, k < (normIdx (-3) ([1, 2, 3, 4, 5] : List Nat).length).toNat →
        ( Prefix ([1, 2, 3, 4, 5] : List Nat) (-3))[k]?
          = ([1, 2, 3, 4, 5] : List Nat)[k]?) ∧
    ((Suffix ([1, 2, 3, 4, 5] : List Nat) (-3)).length
        = ([1, 2, 3, 4, 5] : List Nat).length
          - (normIdx (-3) ([1, 2, 3, 4, 5] : List Nat).length).toNat ∧
      ∀ k : Nat, (Suffix ([1, 2, 3, 4, 5] : List Nat) (-3))[k]?
        = ([1, 2, 3, 4, 5] : List Nat)[(normIdx (-3)
            ([1, 2, 3, 4, 5] : List Nat).length).toNat + k]?) ∧
    ((SliceN ([1, 2, 3, 4, 5] : List Nat) (-3) 2).length = (2 : Int).toNat ∧
      ∀ k : Nat, k < (2 : Int).toNat →
        (SliceN ([1, 2, 3, 4, 5] : List Nat) (-3) 2)[k]?
          = ([1, 2, 3, 4, 5] : List Nat)[(normIdx (-3)
              ([1, 2, 3, 4, 5] : List Nat).length).toNat + k]?) ∧
    ((SliceTo ([1, 2, 3, 4, 5] : List Nat) 1 (-1)).length
        = (normTo (-1) ([1, 2, 3, 4, 5] : List Nat).length).toNat
          - (normIdx 1 ([1, 2, 3, 4, 5] : List Nat).length).toNat ∧
      ∀ k : Nat, k < (normTo (-1) ([1, 2, 3, 4, 5] : List Nat).length).toNat
          - (normIdx 1 ([1, 2, 3, 4, 5] : List Nat).length).toNat →
        (SliceTo ([1, 2, 3, 4, 5] : List Nat) 1 (-1))[k]?
          = ([1, 2, 3, 4, 5] : List Nat)[(normIdx 1
              ([1, 2, 3, 4, 5] : List Nat).length).toNat + k]?) :=
  ⟨⟨by decide, by decide, by decide, by decide, by decide, by decide⟩,
    C8_range_views ([1, 2, 3, 4, 5] : List Nat) (-3) 2 1 (-1)
      (by decide) (by decide) (by decide) (by decide) (by decide) (by decide)⟩

/-- Helper: a list lookup with `getElem?` succeeds exactly on indices
below the length. -/
theorem getElem_q_isSome (l : List T) (k : Nat) :
    l[k]?.isSome = true ↔ k < l.length := by
  by_cases h : k < l.length
  · simp [List.getElem?_eq_getElem h, h]
  · have hnone : l[k]? = none := List.getElem?_eq_none_iff.mpr (by omega)
    simp [hnone, h]

/-- C9: the library performs no bounds validation, clamping or error
translation: `Get` (and likewise `Put`) succeeds exactly when the
normalized index lies in `[0, len S)`; outside that range the
underlying host access itself faults (`none` in the total embedding),
with no error value produced by the library. -/
theorem C9_no_bounds_checks (S : List T) (idx : Int) (v : T) :
    ((Get S idx).isSome = true ↔
      0 ≤ normIdx idx S.length ∧ normIdx idx S.length < (S.length : Int)) ∧
    ((Put S idx v).isSome = true ↔
      0 ≤ normIdx idx S.length ∧ normIdx idx S.length < (S.length : Int)) := by
  constructor
  · have hG : Get S idx = goGet S (normIdx idx S.length) := rfl
    rw [hG]
    unfold goGet
    by_cases hneg : normIdx idx S.length < 0
    · rw [if_pos hneg]
      simp only [Option.isSome_none, Bool.false_eq_true, false_iff]
      omega
    · rw [if_neg hneg, getElem_q_isSome]
      omega
  · have hPut : Put S idx v = goSet S (normIdx idx S.length) v := rfl
    rw [hPut]
    unfold goSet
    by_cases hc : 0 ≤ normIdx idx S.length ∧
        normIdx idx S.length < (S.length : Int)
    · rw [if_pos hc]
      simpa using hc
    · rw [if_neg hc]
      simpa using hc

/-- C10: split identity: concatenating the prefix and the suffix of
`S` at any index whose normalized value lies in `[0, len S]` yields
`S` itself. -/
theorem C10_split_identity (S : List T) (k : Int)
    (h0 : 0 ≤ normIdx k S.length)
    (h1 : normIdx k S.length ≤ (S.length : Int)) :
    Prefix S k ++ Suffix S k = S := by
  have hP : Prefix S k = S.take (normIdx k S.length).toNat := rfl
  have hS : Suffix S k = S.drop (normIdx k S.length).toNat := rfl
  rw [hP, hS, List.take_append_drop]

/-- Witness for C10 at `S = [1,2,3]`, `k = -2` (normalizing to 1). -/
theorem C10_split_identity_witness :
    (0 ≤ normIdx (-2) ([1, 2, 3] : List Nat).length ∧
      normIdx (-2) ([1, 2, 3] : List Nat).length
        ≤ (([1, 2, 3] : List Nat).length : Int)) ∧
    Prefix ([1, 2, 3] : List Nat) (-2) ++ Suffix ([1, 2, 3] : List Nat) (-2)
      = [1, 2, 3] :=
  ⟨⟨by decide, by decide⟩,
    C10_split_identity ([1, 2, 3] : List Nat) (-2) (by decide) (by decide)⟩

end slices
